import Mathlib

set_option linter.unusedVariables false

/- Shallow embedding of the Eventstream core of retentioneering-tools,
   translated from retentioneering/eventstream/eventstream.py.  Machine data
   (uuid event ids, datetime timestamps) is modelled by integers carrying the
   same comparison order; NaN/None/NaT cells are modelled by an explicit null
   (pandas treats them uniformly in dropna and merge-key matching). -/

/-- Cell values of the event table; null models NaN, None and NaT alike. -/
inductive Value where
  | vStr (s : String)
  | vInt (n : Int)
  | vBool (b : Bool)
  | null
deriving DecidableEq, Repr

/-- Row of the event table: the system columns, the custom columns (declared
on the schema), the raw-input columns (prefixed originals), the relation
columns ref_0..ref_n, and the soft-delete flag _deleted.  A column absent
from an association list reads as null, matching the NaN fill of pandas
concat over frames with differing columns. -/
structure Event where
  event_id : Int
  event_index : Int
  event_name : Value
  event_timestamp : Option Int
  user_id : Value
  event_type : Value
  custom : List (String × Value)
  raw : List (String × Value)
  refs : List (Option Int)
  deleted : Bool
deriving DecidableEq, Repr

/-- Modelled from the spec: the schema source (eventstream/schema.py) is not
under src/.  Per the spec, a schema is a role-to-physical-name mapping plus a
custom-column registry; the claims never rename system columns, so physical
names are fixed to the defaults and only the custom-column registry is kept. -/
structure EventstreamSchema where
  custom_cols : List String
deriving DecidableEq, Repr

/-- Modelled from the spec: is_equal returns true iff both schemas map every
semantic role to the same physical name and have the same custom-column set,
order-independent.  With fixed system names this is custom-set equality. -/
def EventstreamSchema.is_equal (a b : EventstreamSchema) : Bool :=
  a.custom_cols.all (fun c => b.custom_cols.contains c) &&
    b.custom_cols.all (fun c => a.custom_cols.contains c)

/-- Lineage edge recorded on a child eventstream: the raw column carrying the
ancestor mapping and the identity of the ancestor eventstream (the code
compares rel["eventstream"] == self by object identity; identity is modelled
by a numeric tag). -/
structure Relation where
  raw_col : Option String
  eventstream : Nat
deriving DecidableEq, Repr

/-- State of one Eventstream object: identity tag, schema, index_order,
relations, the event table rows, and the table-level column inventory (which
raw_-prefixed columns and how many ref_i columns the table carries). -/
structure Eventstream where
  id : Nat
  schema : EventstreamSchema
  index_order : List Value
  relations : List Relation
  rows : List Event
  rawCols : List String
  refCount : Nat
deriving DecidableEq, Repr

/-- Default index order list from eventstream.py (the None entry is null). -/
def DEFAULT_INDEX_ORDER : List Value :=
  [Value.vStr "profile", Value.vStr "path_start", Value.vStr "new_user",
   Value.vStr "existing_user", Value.vStr "cropped_left",
   Value.vStr "session_start", Value.vStr "session_start_cropped",
   Value.vStr "group_alias", Value.vStr "raw", Value.vStr "raw_sleep",
   Value.null, Value.vStr "synthetic", Value.vStr "synthetic_sleep",
   Value.vStr "positive_target", Value.vStr "negative_target",
   Value.vStr "session_end_cropped", Value.vStr "session_end",
   Value.vStr "session_sleep", Value.vStr "cropped_right",
   Value.vStr "absent_user", Value.vStr "lost_user", Value.vStr "path_end"]

/-- Embedding of Eventstream.__get_event_priority: the index of the event
type in index_order when present, else the length of index_order. -/
def getEventPriority (io : List Value) (t : Value) : Nat :=
  match io.findIdx? (fun v => v == t) with
  | some i => i
  | none => io.length

/-- Ascending order on timestamps with NaT (none) sorting last, as pandas
sorts missing timestamps last. -/
def tsLt : Option Int → Option Int → Bool
  | some a, some b => decide (a < b)
  | some _, none => true
  | none, _ => false

/-- Strict part of the two-column sort key (event_timestamp, priority) used
by Eventstream.index_events. -/
def keyLt (io : List Value) (a b : Event) : Bool :=
  tsLt a.event_timestamp b.event_timestamp ||
    (a.event_timestamp == b.event_timestamp &&
      decide (getEventPriority io a.event_type < getEventPriority io b.event_type))

/-- Key equality for the index_events sort key. -/
def keyEq (io : List Value) (a b : Event) : Bool :=
  a.event_timestamp == b.event_timestamp &&
    getEventPriority io a.event_type == getEventPriority io b.event_type

/-- Non-strict sort key comparison. -/
def keyLe (io : List Value) (a b : Event) : Bool :=
  keyLt io a b || keyEq io a b

/-- Stable insertion of one element: x is placed before the first element y
with le x y, so elements that compare equal to x stay before x only when
they originally preceded it. -/
def insertLe (le : α → α → Bool) (x : α) : List α → List α
  | [] => [x]
  | y :: ys => if le x y then x :: y :: ys else y :: insertLe le x ys

/-- Stable insertion sort; embeds the stable np.lexsort that pandas
sort_values uses when sorting by a list of columns. -/
def insertionSort (le : α → α → Bool) : List α → List α
  | [] => []
  | x :: xs => insertLe le x (insertionSort le xs)

/-- Embedding of reset_index plus the event_index assignment of
index_events: event_index becomes the sequential position. -/
def assignIndex (n : Int) : List Event → List Event
  | [] => []
  | e :: es => { e with event_index := n } :: assignIndex (n + 1) es

/-- Embedding of Eventstream.index_events: stable sort of all rows (deleted
rows included) by (event_timestamp, priority of event_type), then re-derive
event_index as the sequential position. -/
def index_events (es : Eventstream) : Eventstream :=
  { es with rows := assignIndex 0 (insertionSort (keyLe es.index_order) es.rows) }

/-- Position tags from a given start, used to express stability, for
reset_index style numbering, and for the fresh per-row event ids of
construction. -/
def enumTag (n : Nat) : List α → List (Nat × α)
  | [] => []
  | r :: rs => (n, r) :: enumTag (n + 1) rs

/-- Modelled from the spec: the tie-broken total order for a stable sort —
strictly smaller key first, equal keys ordered by original position. -/
def tagLe (io : List Value) (p q : Nat × Event) : Bool :=
  keyLt io p.2 q.2 || (keyEq io p.2 q.2 && Nat.ble p.1 q.1)

/-- Modelled from the spec: a stable sort sorts by the key pair and breaks
ties by original relative order; realised by sorting position-tagged rows by
the antisymmetric order tagLe and erasing the tags. -/
def stableSortSpec (io : List Value) (l : List Event) : List Event :=
  (insertionSort (tagLe io) (enumTag 0 l)).map Prod.snd

/-- Physical columns of a materialized view, namespaced the way the code
namespaces them: fixed system names, schema custom columns, raw_-prefixed
input columns, ref_i relation columns and the _deleted flag column. -/
inductive Col where
  | event_id
  | event_name
  | event_type
  | event_timestamp
  | user_id
  | event_index
  | custom (name : String)
  | raw (name : String)
  | ref (i : Nat)
  | deleted
deriving DecidableEq, Repr

/-- Modelled from the spec (schema.py is not under src/): get_cols returns
the system columns followed by the custom columns in declared order. -/
def EventstreamSchema.get_cols (s : EventstreamSchema) : List Col :=
  [Col.event_id, Col.event_name, Col.event_type, Col.event_timestamp,
   Col.user_id, Col.event_index] ++ s.custom_cols.map Col.custom

/-- Embedding of Eventstream._get_raw_cols: the raw_-prefixed columns of the
stored table. -/
def Eventstream.get_raw_cols (es : Eventstream) : List Col :=
  es.rawCols.map Col.raw

/-- Embedding of Eventstream._get_relation_cols: the ref_i columns of the
stored table. -/
def Eventstream.get_relation_cols (es : Eventstream) : List Col :=
  (List.range es.refCount).map Col.ref

/-- Association-list lookup with the NaN default of a missing cell. -/
def cellLookup (l : List (String × Value)) (k : String) : Value :=
  match l.find? (fun p => p.1 == k) with
  | some p => p.2
  | none => Value.null

/-- Value of one view cell of a row. -/
def cellOf (e : Event) : Col → Value
  | Col.event_id => Value.vInt e.event_id
  | Col.event_name => e.event_name
  | Col.event_type => e.event_type
  | Col.event_timestamp =>
      match e.event_timestamp with
      | some t => Value.vInt t
      | none => Value.null
  | Col.user_id => e.user_id
  | Col.event_index => Value.vInt e.event_index
  | Col.custom n => cellLookup e.custom n
  | Col.raw n => cellLookup e.raw n
  | Col.ref i =>
      match e.refs.getD i none with
      | some v => Value.vInt v
      | none => Value.null
  | Col.deleted => Value.vBool e.deleted

/-- Materialized tabular view returned by to_dataframe. -/
structure Frame where
  cols : List Col
  rows : List (List Value)
deriving DecidableEq, Repr

/-- Embedding of Eventstream.to_dataframe: project the stored table to the
schema columns plus the relation columns, optionally the raw columns,
optionally the _deleted column; rows with deleted = true are excluded unless
show_deleted is set. -/
def to_dataframe (es : Eventstream) (raw_cols : Bool := false)
    (show_deleted : Bool := false) : Frame :=
  let cols := es.schema.get_cols ++ es.get_relation_cols ++
    (if raw_cols then es.get_raw_cols else []) ++
    (if show_deleted then [Col.deleted] else [])
  let events := if show_deleted then es.rows
    else es.rows.filter (fun e => e.deleted == false)
  { cols := cols, rows := events.map (fun e => cols.map (cellOf e)) }

/-- Embedding of Eventstream._soft_delete.  The argument stands for the
event_id column of the events frame passed in; the merges by event_id and by
the last relation column reduce, for a table with unique event ids, to the
two membership tests below, each combined with the prior flag by logical OR
(the comparison with True maps the unmatched NaN rows to false). -/
def soft_delete (es : Eventstream) (delIds : List Int) : Eventstream :=
  { es with rows := es.rows.map (fun e =>
      let d1 := e.deleted || delIds.contains e.event_id
      if es.refCount == 0 then { e with deleted := d1 }
      else
        let lastRef := e.refs.getD (es.refCount - 1) none
        let d2 := match lastRef with
          | some v => delIds.contains v
          | none => false
        { e with deleted := d1 || d2 }) }

/-- Output rows of a pandas merge with indicator=True: a row from the left
frame only, from the right frame only, or a matched pair. -/
inductive MergedRow where
  | leftOnly (x : Event)
  | rightOnly (y : Event)
  | both (x y : Event)
deriving DecidableEq, Repr

/-- Ascending order on merge keys with the NaN key sorting last. -/
def okLe : Option Int → Option Int → Bool
  | some a, some b => decide (a ≤ b)
  | some _, none => true
  | none, some _ => false
  | none, none => true

/-- Rows of one merge-key group: left rows only, right rows only, or their
cross product, as pandas emits them. -/
def mergeGroup (xs' ys' : List Event) : List MergedRow :=
  if ys'.isEmpty then xs'.map MergedRow.leftOnly
  else if xs'.isEmpty then ys'.map MergedRow.rightOnly
  else xs'.flatMap (fun x => ys'.map (MergedRow.both x))

/-- Embedding of pd.merge(..., how="outer", indicator=True): the join keys
(NaN keys match each other) are emitted in ascending sorted order — the
documented behaviour of an outer merge is to sort the keys — each key group
holding the matched rows. -/
def outerMerge (xs ys : List Event) (xkey ykey : Event → Option Int) :
    List MergedRow :=
  let keys := insertionSort okLe ((xs.map xkey ++ ys.map ykey).dedup)
  keys.flatMap (fun k =>
    mergeGroup (xs.filter (fun x => xkey x == k)) (ys.filter (fun y => ykey y == k)))

/-- Left side of a merged row, when present. -/
def mergedX : MergedRow → Option Event
  | MergedRow.leftOnly x => some x
  | MergedRow.rightOnly _ => none
  | MergedRow.both x _ => some x

/-- Right side of a merged row, when present. -/
def mergedY : MergedRow → Option Event
  | MergedRow.leftOnly _ => none
  | MergedRow.rightOnly y => some y
  | MergedRow.both _ y => some y

/-- Reassembly of an output row from one side of the merge: the column loops
copy the schema columns, the sides raw columns and the _deleted flag, and no
ref_i column is ever copied, so the relation columns are dropped. -/
def stripRefs (e : Event) : Event :=
  { e with refs := [] }

/-- List union keeping the left operand order first, as pandas concat unions
the columns of its operands. -/
def colUnion (a b : List String) : List String :=
  a ++ b.filter (fun c => !(a.contains c))

/-- Errors raised by the two merge operators. -/
inductive MergeError where
  | schemaMismatch
  | relationNotFound
deriving DecidableEq, Repr

/-- Embedding of Eventstream.append_eventstream: outer merge by event_id,
partition into left-only, right-only and both (the both rows split by the
two deleted flags), resolve right-only, left-deleted-only and
neither-deleted rows from the right side, left-only and right-deleted-only
rows from the left side, both-deleted rows from the left side; only the
schema columns, the raw columns of the originating side and the _deleted
column are reassembled (relation columns are dropped); the result replaces
the stored table and is re-indexed. -/
def append_eventstream (self other : Eventstream) :
    Except MergeError Eventstream :=
  if !(self.schema.is_equal other.schema) then Except.error MergeError.schemaMismatch
  else
    let merged := outerMerge self.rows other.rows
      (fun e => some e.event_id) (fun e => some e.event_id)
    let leftE := merged.filterMap (fun m =>
      match m with | MergedRow.leftOnly x => some x | _ => none)
    let bothE := merged.filterMap (fun m =>
      match m with | MergedRow.both x y => some (x, y) | _ => none)
    let rightE := merged.filterMap (fun m =>
      match m with | MergedRow.rightOnly y => some y | _ => none)
    let bothDeleted := bothE.filter (fun p => p.1.deleted && p.2.deleted)
    let bothDeletedLeft := bothE.filter (fun p => p.1.deleted && !p.2.deleted)
    let bothDeletedRight := bothE.filter (fun p => !p.1.deleted && p.2.deleted)
    let bothNotDeleted := bothE.filter (fun p => !p.1.deleted && !p.2.deleted)
    let rightRows := rightE ++ bothDeletedLeft.map Prod.snd ++ bothNotDeleted.map Prod.snd
    let leftRows := leftE ++ bothDeletedRight.map Prod.fst
    let resultRows := leftRows.map stripRefs ++
      (bothDeleted.map Prod.fst).map stripRefs ++ rightRows.map stripRefs
    Except.ok (index_events
      { self with
        rows := resultRows,
        rawCols := colUnion self.rawCols other.rawCols,
        refCount := 0 })

/-- Modelled from the spec (utils/list.py is not under src/): find_index
returns the first index whose element satisfies the condition, else -1. -/
def find_index (cond : α → Bool) : List α → Int
  | [] => -1
  | a :: l =>
      if cond a then 0
      else
        let r := find_index cond l
        if r = -1 then -1 else r + 1

/-- Embedding of Eventstream._join_eventstream: after the schema and
relation checks, outer merge self (by event_id) with the child (by its
relation column naming self); rows only in self are kept from the left side,
rows matched in both are replaced by the child values except that event_id
is restored from the left side and the left raw columns are kept from the
left side, and right-only rows whose event_id lies in the null-relation rows
of the child are appended from the right side; relation columns are never
reassembled; the schema custom columns become the union of both sides and
the result is re-indexed. -/
def join_eventstream (self other : Eventstream) :
    Except MergeError Eventstream :=
  if !(self.schema.is_equal other.schema) then Except.error MergeError.schemaMismatch
  else
    let relationI := find_index (fun rel => rel.eventstream == self.id) other.relations
    if relationI = -1 then Except.error MergeError.relationNotFound
    else
      let idx := relationI.toNat
      let notRelatedIds := (other.rows.filter (fun y => (y.refs.getD idx none).isNone)).map
        (fun y => y.event_id)
      let merged := outerMerge self.rows other.rows
        (fun e => some e.event_id) (fun e => e.refs.getD idx none)
      let leftE := merged.filterMap (fun m =>
        match m with | MergedRow.leftOnly x => some x | _ => none)
      let bothE := merged.filterMap (fun m =>
        match m with | MergedRow.both x y => some (x, y) | _ => none)
      let rightE := merged.filterMap (fun m =>
        match mergedY m with
        | some y => if notRelatedIds.contains y.event_id then some y else none
        | none => none)
      let leftPart := leftE.map stripRefs
      let rightPart := rightE.map stripRefs
      let bothPart := bothE.map (fun p =>
        { stripRefs p.2 with event_id := p.1.event_id, raw := p.1.raw })
      let customUnion := self.schema.custom_cols ++
        other.schema.custom_cols.filter (fun c => !(self.schema.custom_cols.contains c))
      Except.ok (index_events
        { self with
          rows := leftPart ++ rightPart ++ bothPart,
          rawCols := colUnion self.rawCols other.rawCols,
          refCount := 0,
          schema := { custom_cols := customUnion } })

/-- Modelled from the spec (schema.py is not under src/): the raw-data schema
names the raw columns holding each role, an optional event_type column, and
the custom-column mapping raw_data_col to custom_col. -/
structure RawDataSchema where
  event_name : String
  event_timestamp : String
  user_id : String
  event_type : Option String
  custom_cols : List (String × String)
deriving DecidableEq, Repr

/-- Raw tabular input: the column names and one cell list per row. -/
structure RawFrame where
  cols : List String
  rows : List (List (String × Value))
deriving DecidableEq, Repr

/-- Errors raised during Eventstream construction. -/
inductive ConstructError where
  | badSampleType
  | negativeSample
  | shareAboveOne
  | missingColumn (name : String)
deriving DecidableEq, Repr

/-- Python-typed user_sample_size argument: an int, a float (modelled as a
rational), or a value of any other type. -/
inductive SampleSize where
  | int (n : Int)
  | float (q : Rat)
  | other
deriving DecidableEq, Repr

/-- Embedding of Eventstream.__sample_user_paths: reject a size that is
neither int nor float, a negative size, and a float share above 1; then keep
the rows of the users chosen by the seeded random choice, modelled by the
choose argument picking that many distinct users. -/
def sample_user_paths (raw : RawFrame) (rds : RawDataSchema)
    (user_sample_size : SampleSize)
    (choose : List Value → Nat → List Value) :
    Except ConstructError RawFrame :=
  match user_sample_size with
  | SampleSize.other => Except.error ConstructError.badSampleType
  | SampleSize.int n =>
      if n < 0 then Except.error ConstructError.negativeSample
      else
        let uniqueUsers := (raw.rows.map (fun r => cellLookup r rds.user_id)).dedup
        let sampleUsers := choose uniqueUsers n.toNat
        let kept := raw.rows.filter (fun r => sampleUsers.contains (cellLookup r rds.user_id))
        Except.ok { raw with rows := kept }
  | SampleSize.float q =>
      if q < 0 then Except.error ConstructError.negativeSample
      else if q > 1 then Except.error ConstructError.shareAboveOne
      else
        let uniqueUsers := (raw.rows.map (fun r => cellLookup r rds.user_id)).dedup
        let sampleSize := (q * uniqueUsers.length).floor.toNat
        let sampleUsers := choose uniqueUsers sampleSize
        let kept := raw.rows.filter (fun r => sampleUsers.contains (cellLookup r rds.user_id))
        Except.ok { raw with rows := kept }

/-- Parse of pd.to_datetime on one cell, and of an id-valued cell: an
integer stays an integer, a missing value becomes NaT / a null reference. -/
def parseTs : Value → Option Int
  | Value.vInt n => some n
  | _ => none

/-- Row-wise assembly of the prepared events of Eventstream.__prepare_events;
uuid4 values are modelled by the fresh per-row positions. -/
def prepareRows (rds : RawDataSchema) (relations : List Relation)
    (raw : RawFrame) : List Event :=
  (enumTag 0 raw.rows).map (fun p =>
    { event_id := Int.ofNat p.1
      event_index := 0
      event_name := cellLookup p.2 rds.event_name
      event_timestamp := parseTs (cellLookup p.2 rds.event_timestamp)
      user_id := cellLookup p.2 rds.user_id
      event_type := match rds.event_type with
        | some c => cellLookup p.2 c
        | none => Value.vStr "raw"
      custom := rds.custom_cols.map (fun q => (q.2, cellLookup p.2 q.1))
      raw := p.2
      refs := relations.map (fun rel =>
        match rel.raw_col with
        | some c => parseTs (cellLookup p.2 c)
        | none => none)
      deleted := false })

/-- Embedding of Eventstream.__prepare_events: every raw column is kept (the
raw_ prefix rename is a bijection, modelled by keeping the original names),
a fresh unique event_id is assigned per row, deleted is set to false,
event_name, event_timestamp (parsed) and user_id are pulled from their
declared raw columns, event_type is pulled from its raw column when
declared, else set to the literal raw, custom columns are populated from
their mapped raw columns, and each relation i yields a ref_i column from its
named raw column (all-missing for a null raw_col); a declared role or
custom raw column absent from the data raises a validation error naming it. -/
def prepare_events (rds : RawDataSchema) (relations : List Relation)
    (raw : RawFrame) : Except ConstructError (List Event) :=
  if !(raw.cols.contains rds.event_name) then
    Except.error (ConstructError.missingColumn rds.event_name)
  else if !(raw.cols.contains rds.event_timestamp) then
    Except.error (ConstructError.missingColumn rds.event_timestamp)
  else if !(raw.cols.contains rds.user_id) then
    Except.error (ConstructError.missingColumn rds.user_id)
  else match rds.event_type with
  | some tcol =>
      if !(raw.cols.contains tcol) then
        Except.error (ConstructError.missingColumn tcol)
      else match rds.custom_cols.find? (fun p => !(raw.cols.contains p.1)) with
      | some p => Except.error (ConstructError.missingColumn p.1)
      | none => Except.ok (prepareRows rds relations raw)
  | none =>
      match rds.custom_cols.find? (fun p => !(raw.cols.contains p.1)) with
      | some p => Except.error (ConstructError.missingColumn p.1)
      | none => Except.ok (prepareRows rds relations raw)

/-- Row kept by the required cleanup: event_name, event_timestamp and
user_id all present. -/
def requiredRowOk (e : Event) : Bool :=
  !(e.event_name == Value.null) && !(e.event_timestamp == none) &&
    !(e.user_id == Value.null)

/-- Embedding of Eventstream.__required_cleanup: drop every row with an
empty event_name, event_timestamp or user_id, and report the number of
removed rows as a non-fatal warning when at least one row was removed. -/
def required_cleanup (events : List Event) : List Event × Option Nat :=
  let cleaned := events.filter requiredRowOk
  let removed := events.length - cleaned.length
  (cleaned, if removed > 0 then some removed else none)

/-- Embedding of Eventstream.__init__ for a raw input: optional user
subsampling (validated), preparation, required cleanup with its warning,
and the initial index_events; the new object carries the given identity
tag, schema extended by the raw-data custom columns, index order and
relations, the raw column inventory and one ref_i column per relation. -/
def eventstream_init (esId : Nat) (raw : RawFrame) (rds : RawDataSchema)
    (schema : EventstreamSchema) (io : List Value)
    (relations : List Relation) (user_sample_size : Option SampleSize)
    (choose : List Value → Nat → List Value) :
    Except ConstructError (Eventstream × Option Nat) := do
  let sampled ← match user_sample_size with
    | none => Except.ok raw
    | some sz => sample_user_paths raw rds sz choose
  let prepared ← prepare_events rds relations sampled
  let cleanedWarn := required_cleanup prepared
  let customs := schema.custom_cols ++
    (rds.custom_cols.map Prod.snd).filter (fun c => !(schema.custom_cols.contains c))
  let es : Eventstream :=
    { id := esId
      schema := { custom_cols := customs }
      index_order := io
      relations := relations
      rows := cleanedWarn.1
      rawCols := sampled.cols
      refCount := relations.length }
  Except.ok (index_events es, cleanedWarn.2)

/-- Embedding of Eventstream.copy as it acts on the copied data: the new
object receives independent copies of the table, schema, index order and
relations, and its constructor (prepare=False) runs required cleanup and
index_events on the copied table. -/
def copy_contents (es : Eventstream) (newId : Nat) : Eventstream :=
  index_events
    { id := newId
      schema := es.schema
      index_order := es.index_order
      relations := es.relations
      rows := (required_cleanup es.rows).1
      rawCols := es.rawCols
      refCount := es.refCount }

/-- Table-mutating operations of one Eventstream object: marking a soft
delete, re-indexing, adding a custom column, or a merge operator replacing
the table wholesale (the other operand passed by value).  Each writes only
to the object it is invoked on. -/
inductive MutOp where
  | softDelete (delIds : List Int)
  | reindex
  | addCustomCol (name : String) (vals : List Value)
  | appendOther (other : Eventstream)
  | joinOther (other : Eventstream)
deriving Repr

/-- Embedding of Eventstream.add_custom_col: register the name on the schema
and attach the positional values as a new column (missing positions are
missing values). -/
def add_custom_col (es : Eventstream) (name : String) (vals : List Value) :
    Eventstream :=
  { es with
    schema := { custom_cols := es.schema.custom_cols ++ [name] }
    rows := (enumTag 0 es.rows).map (fun p =>
      { p.2 with custom := p.2.custom ++ [(name, vals.getD p.1 Value.null)] }) }

/-- Effect of one mutating operation on the invoked object; a failing merge
leaves the object unchanged (the operators raise before any write). -/
def applyMutOp (es : Eventstream) : MutOp → Eventstream
  | MutOp.softDelete delIds => soft_delete es delIds
  | MutOp.reindex => index_events es
  | MutOp.addCustomCol name vals => add_custom_col es name vals
  | MutOp.appendOther other =>
      match append_eventstream es other with
      | Except.ok res => res
      | Except.error _ => es
  | MutOp.joinOther other =>
      match join_eventstream es other with
      | Except.ok res => res
      | Except.error _ => es

/-- Heap of Eventstream objects, indexed by identity tag: the embedding of
Python object identity for the copy claim. -/
abbrev Heap := List Eventstream

/-- Read one object of the heap. -/
def heapGet (h : Heap) (i : Nat) : Option Eventstream :=
  List.getD (h.map some) i none

/-- Embedding of Eventstream.copy at the heap level: allocate a fresh object
initialised from independent copies of the data of object i. -/
def heapCopy (h : Heap) (i : Nat) : Heap × Nat :=
  match heapGet h i with
  | some es => (h ++ [copy_contents es h.length], h.length)
  | none => (h, i)

/-- Apply one mutating operation to the object at address i: only that cell
of the heap is written, since every method writes only to self. -/
def heapMutate (h : Heap) (i : Nat) (op : MutOp) : Heap :=
  match heapGet h i with
  | some es => h.set i (applyMutOp es op)
  | none => h

/-- Apply a sequence of addressed mutating operations. -/
def heapRun (h : Heap) : List (Nat × MutOp) → Heap
  | [] => h
  | p :: ps => heapRun (heapMutate h p.1 p.2) ps

/-- Observable read-only calls of the monotonicity claim: a soft delete, a
re-index, or a to_dataframe call (which performs no write). -/
inductive ReadWriteOp where
  | softDelete (delIds : List Int)
  | reindex
  | toDf (raw_cols show_deleted : Bool)
deriving Repr

/-- State effect of one call of the monotonicity claim; to_dataframe only
reads the table. -/
def applyRWOp (es : Eventstream) : ReadWriteOp → Eventstream
  | ReadWriteOp.softDelete delIds => soft_delete es delIds
  | ReadWriteOp.reindex => index_events es
  | ReadWriteOp.toDf _ _ => es

/-- Sequential application of the calls of the monotonicity claim. -/
def applyRWOps (es : Eventstream) : List ReadWriteOp → Eventstream
  | [] => es
  | op :: ops => applyRWOps (applyRWOp es op) ops

/-- Row of the ordering example: a raw event at the shared timestamp
2022-01-01 00:01:00, modelled as its epoch second 1640995260. -/
def exampleRawRow : Event :=
  { event_id := 1, event_index := 0, event_name := Value.vStr "pageview",
    event_timestamp := some 1640995260, user_id := Value.vInt 1,
    event_type := Value.vStr "raw", custom := [], raw := [], refs := [],
    deleted := false }

/-- Row of the ordering example: a session_start event at the identical
timestamp. -/
def exampleSessionStartRow : Event :=
  { exampleRawRow with
      event_id := 2, event_index := 1,
      event_name := Value.vStr "session_start",
      event_type := Value.vStr "session_start" }

/-- Stream of the ordering example, holding the raw row before the
session_start row under the default index order. -/
def exampleOrderingStream : Eventstream :=
  { id := 0, schema := { custom_cols := [] },
    index_order := DEFAULT_INDEX_ORDER, relations := [],
    rows := [exampleRawRow, exampleSessionStartRow],
    rawCols := [], refCount := 0 }

/-- Modelled from the claim wording of the projection claim: the requested
columns are the system and custom columns, the raw-input columns only when
raw_cols, and the deleted-flag column only when show_deleted. -/
def requestedColsSpec (es : Eventstream) (raw_cols show_deleted : Bool) :
    List Col :=
  es.schema.get_cols ++ (if raw_cols then es.get_raw_cols else []) ++
    (if show_deleted then [Col.deleted] else [])

/-- Stream whose table carries one relation column, for the projection and
merge claims. -/
def refColStream : Eventstream :=
  { id := 3, schema := { custom_cols := [] },
    index_order := DEFAULT_INDEX_ORDER,
    relations := [{ raw_col := none, eventstream := 7 }],
    rows := [{ exampleRawRow with refs := [some 5] }],
    rawCols := [], refCount := 1 }

/-- New-row mark of one _soft_delete call on one row: a match by event_id,
and, when the table has relation columns, a match of the last relation
column. -/
def softDeleteMark (es : Eventstream) (delIds : List Int) (e : Event) : Bool :=
  if es.refCount == 0 then delIds.contains e.event_id
  else
    delIds.contains e.event_id ||
      (match e.refs.getD (es.refCount - 1) none with
       | some v => delIds.contains v
       | none => false)

/-- Stream with one already-deleted row, for the monotonicity claim. -/
def deletedRowStream : Eventstream :=
  { id := 4, schema := { custom_cols := [] },
    index_order := DEFAULT_INDEX_ORDER, relations := [],
    rows := [{ exampleRawRow with deleted := true },
             { exampleSessionStartRow with event_id := 9 }],
    rawCols := [], refCount := 0 }

/-- Modelled from the claim wording of the sampling claim: the size argument
is invalid iff it is neither int nor float, or negative, or a float share
above 1. -/
def invalidSampleSize : SampleSize → Bool
  | SampleSize.other => true
  | SampleSize.int n => decide (n < 0)
  | SampleSize.float q => decide (q < 0) || decide (q > 1)

/-- Raw-data schema of the construction example, with the default role
column names. -/
def defaultRDS : RawDataSchema :=
  { event_name := "event", event_timestamp := "timestamp",
    user_id := "user_id", event_type := none, custom_cols := [] }

/-- Raw input of the missing-required-field example: a single row whose
user_id is null. -/
def nullUserRaw : RawFrame :=
  { cols := ["event", "timestamp", "user_id"],
    rows := [[("event", Value.vStr "pageview"), ("timestamp", Value.vInt 100),
              ("user_id", Value.null)]] }

/-- Deterministic stand-in for the seeded numpy user choice. -/
def anyChoose : List Value → Nat → List Value := fun l n => l.take n

/-- Expected eventstream of the missing-required-field example: construction
succeeds with zero rows. -/
def c8ExpectedStream : Eventstream :=
  { id := 0, schema := { custom_cols := [] },
    index_order := DEFAULT_INDEX_ORDER, relations := [], rows := [],
    rawCols := ["event", "timestamp", "user_id"], refCount := 0 }

/-- Agreement of two rows on every field except event_index (recomputed by
the final re-sort) and the relation columns (dropped by the merge
operators). -/
def rowFieldsAgree (a b : Event) : Bool :=
  a.event_id == b.event_id && a.event_name == b.event_name &&
    a.event_type == b.event_type && a.event_timestamp == b.event_timestamp &&
    a.user_id == b.user_id && a.custom == b.custom && a.raw == b.raw &&
    a.deleted == b.deleted

/-- Parent row of the lineage-join example; the parent itself is a derived
stream, so the row carries a relation column value. -/
def joinParentRow : Event :=
  { event_id := 10, event_index := 0, event_name := Value.vStr "a",
    event_timestamp := some 100, user_id := Value.vInt 1,
    event_type := Value.vStr "raw", custom := [], raw := [],
    refs := [some 7], deleted := false }

/-- Parent stream of the lineage-join example. -/
def joinParentStream : Eventstream :=
  { id := 0, schema := { custom_cols := [] },
    index_order := DEFAULT_INDEX_ORDER,
    relations := [{ raw_col := none, eventstream := 99 }],
    rows := [joinParentRow], rawCols := [], refCount := 1 }

/-- Child row of the lineage-join example: a brand-new synthetic row with a
null relation value and an earlier timestamp. -/
def joinChildRow : Event :=
  { event_id := 20, event_index := 0, event_name := Value.vStr "new",
    event_timestamp := some 50, user_id := Value.vInt 1,
    event_type := Value.vStr "raw", custom := [], raw := [],
    refs := [none], deleted := false }

/-- Child stream of the lineage-join example, carrying a relation naming the
parent. -/
def joinChildStream : Eventstream :=
  { id := 1, schema := { custom_cols := [] },
    index_order := DEFAULT_INDEX_ORDER,
    relations := [{ raw_col := some "x", eventstream := 0 }],
    rows := [joinChildRow], rawCols := [], refCount := 1 }

/-- Result of the lineage-join example: the new child row sorts first, the
unreferenced parent row survives with its relation column dropped and its
event_index recomputed. -/
def joinResultStream : Eventstream :=
  { id := 0, schema := { custom_cols := [] },
    index_order := DEFAULT_INDEX_ORDER,
    relations := [{ raw_col := none, eventstream := 99 }],
    rows := [{ joinChildRow with refs := [], event_index := 0 },
             { joinParentRow with refs := [], event_index := 1 }],
    rawCols := [], refCount := 0 }

/-- Stream of the union-merge example: two rows tied on the sort key with
event ids out of ascending order, plus one relation column. -/
def cexAppendSelf : Eventstream :=
  { id := 7, schema := { custom_cols := [] },
    index_order := DEFAULT_INDEX_ORDER,
    relations := [{ raw_col := none, eventstream := 42 }],
    rows := [{ exampleRawRow with
                 event_id := 2, event_index := 0, refs := [some 7] },
             { exampleRawRow with
                 event_id := 1, event_index := 1, refs := [some 8] }],
    rawCols := [], refCount := 1 }

/-- Empty eventstream of the union-merge example, schema-compatible with the
stream above. -/
def cexAppendEmpty : Eventstream :=
  { id := 6, schema := { custom_cols := [] },
    index_order := DEFAULT_INDEX_ORDER, relations := [], rows := [],
    rawCols := [], refCount := 0 }

/-- Result of appending the empty stream: the relation column is gone and
the tied rows are re-ordered by event_id. -/
def cexAppendResult : Eventstream :=
  { id := 7, schema := { custom_cols := [] },
    index_order := DEFAULT_INDEX_ORDER,
    relations := [{ raw_col := none, eventstream := 42 }],
    rows := [{ exampleRawRow with
                 event_id := 1, event_index := 0, refs := [] },
             { exampleRawRow with
                 event_id := 2, event_index := 1, refs := [] }],
    rawCols := [], refCount := 0 }

/-- Indexed stream with strictly increasing sort keys and no relation
columns, for the amended union-merge identity. -/
def wAppendSelf : Eventstream :=
  { id := 8, schema := { custom_cols := [] },
    index_order := DEFAULT_INDEX_ORDER, relations := [],
    rows := [{ exampleRawRow with
                 event_id := 3, event_index := 0 },
             { exampleRawRow with
                 event_id := 4, event_index := 1,
                 event_timestamp := some 1640995300 }],
    rawCols := [], refCount := 0 }

/- Sorting infrastructure lemmas. -/

theorem tsLt_trichotomy (x y : Option Int) :
    tsLt x y = true ∨ tsLt y x = true ∨ x = y := by
  cases x <;> cases y <;> simp [tsLt] <;> omega

theorem tsLt_irrefl (x : Option Int) : tsLt x x = false := by
  cases x <;> simp [tsLt]

theorem tsLt_asymm {x y : Option Int} (h : tsLt x y = true) : tsLt y x = false := by
  cases x <;> cases y <;> simp_all [tsLt] <;> omega

theorem tsLt_trans {x y z : Option Int} (h1 : tsLt x y = true)
    (h2 : tsLt y z = true) : tsLt x z = true := by
  cases x <;> cases y <;> cases z <;> simp_all [tsLt] <;> omega

theorem keyLt_iff (io : List Value) (a b : Event) :
    keyLt io a b = true ↔
      (tsLt a.event_timestamp b.event_timestamp = true ∨
        (a.event_timestamp = b.event_timestamp ∧
          getEventPriority io a.event_type < getEventPriority io b.event_type)) := by
  simp [keyLt, Bool.or_eq_true, Bool.and_eq_true, beq_iff_eq, decide_eq_true_iff]

theorem keyEq_iff (io : List Value) (a b : Event) :
    keyEq io a b = true ↔
      (a.event_timestamp = b.event_timestamp ∧
        getEventPriority io a.event_type = getEventPriority io b.event_type) := by
  simp [keyEq, Bool.and_eq_true, beq_iff_eq]

theorem keyLe_iff (io : List Value) (a b : Event) :
    keyLe io a b = true ↔ (keyLt io a b = true ∨ keyEq io a b = true) := by
  simp [keyLe, Bool.or_eq_true]

theorem keyLe_total (io : List Value) (a b : Event) (h : keyLe io a b = false) :
    keyLe io b a = true := by
  rcases tsLt_trichotomy a.event_timestamp b.event_timestamp with ht | ht | ht
  · exact absurd ((keyLe_iff io a b).mpr (Or.inl ((keyLt_iff io a b).mpr (Or.inl ht))))
      (by simp [h])
  · exact (keyLe_iff io b a).mpr (Or.inl ((keyLt_iff io b a).mpr (Or.inl ht)))
  · rcases Nat.lt_trichotomy (getEventPriority io a.event_type)
      (getEventPriority io b.event_type) with hp | hp | hp
    · exact absurd ((keyLe_iff io a b).mpr (Or.inl ((keyLt_iff io a b).mpr
        (Or.inr ⟨ht, hp⟩)))) (by simp [h])
    · exact absurd ((keyLe_iff io a b).mpr (Or.inr ((keyEq_iff io a b).mpr
        ⟨ht, hp⟩))) (by simp [h])
    · exact (keyLe_iff io b a).mpr (Or.inl ((keyLt_iff io b a).mpr
        (Or.inr ⟨ht.symm, hp⟩)))

theorem keyLe_trans (io : List Value) (a b c : Event)
    (h1 : keyLe io a b = true) (h2 : keyLe io b c = true) :
    keyLe io a c = true := by
  rcases (keyLe_iff io a b).mp h1 with h1 | h1 <;>
    rcases (keyLe_iff io b c).mp h2 with h2 | h2
  · rcases (keyLt_iff io a b).mp h1 with p1 | p1 <;>
      rcases (keyLt_iff io b c).mp h2 with p2 | p2
    · exact (keyLe_iff io a c).mpr (Or.inl ((keyLt_iff io a c).mpr
        (Or.inl (tsLt_trans p1 p2))))
    · exact (keyLe_iff io a c).mpr (Or.inl ((keyLt_iff io a c).mpr
        (Or.inl (p2.1 ▸ p1))))
    · exact (keyLe_iff io a c).mpr (Or.inl ((keyLt_iff io a c).mpr
        (Or.inl (p1.1 ▸ p2))))
    · exact (keyLe_iff io a c).mpr (Or.inl ((keyLt_iff io a c).mpr
        (Or.inr ⟨p1.1.trans p2.1, p1.2.trans p2.2⟩)))
  · have q2 := (keyEq_iff io b c).mp h2
    rcases (keyLt_iff io a b).mp h1 with p1 | p1
    · exact (keyLe_iff io a c).mpr (Or.inl ((keyLt_iff io a c).mpr
        (Or.inl (q2.1 ▸ p1))))
    · exact (keyLe_iff io a c).mpr (Or.inl ((keyLt_iff io a c).mpr
        (Or.inr ⟨p1.1.trans q2.1, q2.2 ▸ p1.2⟩)))
  · have q1 := (keyEq_iff io a b).mp h1
    rcases (keyLt_iff io b c).mp h2 with p2 | p2
    · exact (keyLe_iff io a c).mpr (Or.inl ((keyLt_iff io a c).mpr
        (Or.inl (q1.1 ▸ p2))))
    · exact (keyLe_iff io a c).mpr (Or.inl ((keyLt_iff io a c).mpr
        (Or.inr ⟨q1.1.trans p2.1, q1.2 ▸ p2.2⟩)))
  · have q1 := (keyEq_iff io a b).mp h1
    have q2 := (keyEq_iff io b c).mp h2
    exact (keyLe_iff io a c).mpr (Or.inr ((keyEq_iff io a c).mpr
      ⟨q1.1.trans q2.1, q1.2.trans q2.2⟩))

theorem insertLe_perm (le : α → α → Bool) (x : α) (l : List α) :
    (insertLe le x l).Perm (x :: l) := by
  induction l with
  | nil => exact List.Perm.refl _
  | cons y ys ih =>
    by_cases h : le x y = true
    · simp [insertLe, h]
    · simp only [insertLe, h, if_false, Bool.not_eq_true] at *
      exact (ih.cons y).trans (List.Perm.swap x y ys)

theorem insertionSort_perm (le : α → α → Bool) (l : List α) :
    (insertionSort le l).Perm l := by
  induction l with
  | nil => exact List.Perm.refl _
  | cons x xs ih => exact (insertLe_perm le x (insertionSort le xs)).trans (ih.cons x)

theorem mem_insertionSort {le : α → α → Bool} {l : List α} {z : α} :
    z ∈ insertionSort le l ↔ z ∈ l :=
  (insertionSort_perm le l).mem_iff

theorem mem_insertLe {le : α → α → Bool} {x : α} {l : List α} {z : α}
    (h : z ∈ insertLe le x l) : z = x ∨ z ∈ l := by
  have := (insertLe_perm le x l).mem_iff.mp h
  simpa using this

theorem pairwise_insertLe {le : α → α → Bool}
    (total : ∀ a b, le a b = false → le b a = true)
    (trans : ∀ a b c, le a b = true → le b c = true → le a c = true)
    (x : α) {l : List α} (h : l.Pairwise (fun a b => le a b = true)) :
    (insertLe le x l).Pairwise (fun a b => le a b = true) := by
  induction l with
  | nil => simp [insertLe]
  | cons y ys ih =>
    rcases List.pairwise_cons.mp h with ⟨hy, hys⟩
    by_cases hxy : le x y = true
    · simp only [insertLe, hxy, if_true]
      refine List.pairwise_cons.mpr ⟨?_, h⟩
      intro z hz
      rcases List.mem_cons.mp hz with rfl | hz
      · exact hxy
      · exact trans x y z hxy (hy z hz)
    · simp only [insertLe, hxy, if_false]
      refine List.pairwise_cons.mpr ⟨?_, ih hys⟩
      intro z hz
      rcases mem_insertLe hz with rfl | hz
      · exact total z y (by simpa using hxy)
      · exact hy z hz

theorem pairwise_insertionSort {le : α → α → Bool}
    (total : ∀ a b, le a b = false → le b a = true)
    (trans : ∀ a b c, le a b = true → le b c = true → le a c = true)
    (l : List α) :
    (insertionSort le l).Pairwise (fun a b => le a b = true) := by
  induction l with
  | nil => simp [insertionSort]
  | cons x xs ih => exact pairwise_insertLe total trans x ih

theorem insertionSort_of_pairwise {le : α → α → Bool} {l : List α}
    (h : l.Pairwise (fun a b => le a b = true)) :
    insertionSort le l = l := by
  induction l with
  | nil => rfl
  | cons x xs ih =>
    rcases List.pairwise_cons.mp h with ⟨hx, hxs⟩
    rw [insertionSort, ih hxs]
    cases xs with
    | nil => rfl
    | cons y ys =>
      have : le x y = true := hx y (List.mem_cons_self y ys)
      simp [insertLe, this]

theorem keyLt_index_left (io : List Value) (a b : Event) (m : Int) :
    keyLt io { a with event_index := m } b = keyLt io a b := rfl

theorem keyLe_index_left (io : List Value) (a b : Event) (m : Int) :
    keyLe io { a with event_index := m } b = keyLe io a b := rfl

theorem keyLe_index_right (io : List Value) (a b : Event) (m : Int) :
    keyLe io a { b with event_index := m } = keyLe io a b := rfl

theorem mem_assignIndex {l : List Event} {n : Int} {z : Event}
    (h : z ∈ assignIndex n l) : ∃ b ∈ l, ∃ k, z = { b with event_index := k } := by
  induction l generalizing n with
  | nil => simp [assignIndex] at h
  | cons e es ih =>
    rcases List.mem_cons.mp h with rfl | h
    · exact ⟨e, List.mem_cons_self e es, n, rfl⟩
    · rcases ih h with ⟨b, hb, k, hk⟩
      exact ⟨b, List.mem_cons_of_mem e hb, k, hk⟩

theorem pairwise_assignIndex {io : List Value} {l : List Event} {n : Int}
    (h : l.Pairwise (fun a b => keyLe io a b = true)) :
    (assignIndex n l).Pairwise (fun a b => keyLe io a b = true) := by
  induction l generalizing n with
  | nil => simp [assignIndex]
  | cons e es ih =>
    rcases List.pairwise_cons.mp h with ⟨he, hes⟩
    refine List.pairwise_cons.mpr ⟨?_, ih hes⟩
    intro z hz
    rcases mem_assignIndex hz with ⟨b, hb, k, rfl⟩
    rw [keyLe_index_left, keyLe_index_right]
    exact he b hb

theorem assignIndex_assignIndex (l : List Event) (n : Int) :
    assignIndex n (assignIndex n l) = assignIndex n l := by
  induction l generalizing n with
  | nil => rfl
  | cons e es ih => simp [assignIndex, ih]

/-- Claim C3: index_events is idempotent — applying it twice yields exactly
the same row order and the same event_index assignment as applying it
once. -/
theorem index_events_idempotent (es : Eventstream) :
    index_events (index_events es) = index_events es := by
  unfold index_events
  simp only
  congr 1
  have hs : (insertionSort (keyLe es.index_order) es.rows).Pairwise
      (fun a b => keyLe es.index_order a b = true) :=
    pairwise_insertionSort (fun a b => keyLe_total es.index_order a b)
      (fun a b c => keyLe_trans es.index_order a b c) es.rows
  rw [insertionSort_of_pairwise (pairwise_assignIndex hs)]
  exact assignIndex_assignIndex _ 0

theorem tagLe_eq_keyLe {io : List Value} {p q : Nat × Event} (h : p.1 < q.1) :
    tagLe io p q = keyLe io p.2 q.2 := by
  have : Nat.ble p.1 q.1 = true := Nat.ble_eq.mpr (Nat.le_of_lt h)
  simp [tagLe, keyLe, this]

theorem mapSnd_insertLe {io : List Value} (p : Nat × Event)
    (m : List (Nat × Event)) (hb : ∀ q ∈ m, p.1 < q.1) :
    (insertLe (tagLe io) p m).map Prod.snd =
      insertLe (keyLe io) p.2 (m.map Prod.snd) := by
  induction m with
  | nil => rfl
  | cons q m ih =>
    have hq : tagLe io p q = keyLe io p.2 q.2 :=
      tagLe_eq_keyLe (hb q (List.mem_cons_self q m))
    have ihm := ih (fun r hr => hb r (List.mem_cons_of_mem q hr))
    by_cases hc : keyLe io p.2 q.2 = true
    · simp [insertLe, hq, hc]
    · simp [insertLe, hq, hc, ihm]

theorem mem_enumTag {l : List α} {n : Nat} {q : Nat × α}
    (h : q ∈ enumTag n l) : n ≤ q.1 := by
  induction l generalizing n with
  | nil => simp [enumTag] at h
  | cons x xs ih =>
    rcases List.mem_cons.mp h with rfl | h
    · exact Nat.le_refl n
    · exact Nat.le_of_succ_le (ih h)

theorem insertionSort_enumTag_eq (io : List Value) (l : List Event) (n : Nat) :
    (insertionSort (tagLe io) (enumTag n l)).map Prod.snd =
      insertionSort (keyLe io) l := by
  induction l generalizing n with
  | nil => rfl
  | cons x xs ih =>
    show (insertLe (tagLe io) (n, x)
      (insertionSort (tagLe io) (enumTag (n + 1) xs))).map Prod.snd = _
    rw [mapSnd_insertLe]
    · rw [ih (n + 1)]
      rfl
    · intro q hq
      exact Nat.lt_of_succ_le (mem_enumTag (mem_insertionSort.mp hq))

/-- Claim C4: index_events stably sorts all rows (deleted included) by the
pair (event_timestamp, priority of event_type) — priority being the index in
index_order, or its length for an unlisted type — breaking ties by original
relative order, and re-derives event_index as the sequential position; in
particular, of two rows sharing the timestamp 2022-01-01 00:01:00, the
session_start row precedes the raw row in the materialized view under the
default index order. -/
theorem index_events_stable_sort :
    (∀ es : Eventstream, (index_events es).rows =
      assignIndex 0 (stableSortSpec es.index_order es.rows)) ∧
    (to_dataframe (index_events exampleOrderingStream)).rows.map
        (fun r => r.getD 2 Value.null) =
      [Value.vStr "session_start", Value.vStr "raw"] := by
  constructor
  · intro es
    unfold index_events stableSortSpec
    rw [insertionSort_enumTag_eq]
  · decide

/- Projection claim. -/

/-- Claim C5 as stated fails on a table carrying a relation column: the view
always contains the ref_i columns, which the requested-column list of the
claim does not admit. -/
theorem to_dataframe_requested_cols_cex :
    Col.ref 0 ∈ (to_dataframe refColStream false false).cols ∧
    Col.ref 0 ∉ requestedColsSpec refColStream false false := by
  decide

/-- Claim C5 (amended): to_dataframe returns exactly the system, custom and
relation columns, the raw-input columns exactly when raw_cols is set, the
deleted-flag column exactly when show_deleted is set; when show_deleted is
false it returns precisely the projections of the rows whose deleted flag is
false, in table order, and when true the projections of all rows; the stored
table is never written. -/
theorem to_dataframe_projection (es : Eventstream) (rc sd : Bool) :
    ((to_dataframe es rc sd).cols =
      es.schema.get_cols ++ es.get_relation_cols ++
        (if rc then es.get_raw_cols else []) ++
        (if sd then [Col.deleted] else [])) ∧
    (Col.deleted ∈ (to_dataframe es rc sd).cols ↔ sd = true) ∧
    (∀ n, Col.raw n ∈ (to_dataframe es rc sd).cols ↔ (rc = true ∧ n ∈ es.rawCols)) ∧
    ((to_dataframe es rc false).rows =
      (es.rows.filter (fun e => e.deleted == false)).map
        (fun e => (to_dataframe es rc false).cols.map (cellOf e))) ∧
    ((to_dataframe es rc true).rows =
      es.rows.map (fun e => (to_dataframe es rc true).cols.map (cellOf e))) := by
  refine ⟨rfl, ?_, ?_, rfl, rfl⟩
  · simp only [to_dataframe, EventstreamSchema.get_cols,
      Eventstream.get_relation_cols, Eventstream.get_raw_cols]
    cases sd <;> cases rc <;> simp
  · intro n
    simp only [to_dataframe, EventstreamSchema.get_cols,
      Eventstream.get_relation_cols, Eventstream.get_raw_cols]
    cases sd <;> cases rc <;> simp

/- Soft-delete monotonicity claim. -/

theorem mem_assignIndex_of_mem {l : List Event} {r : Event} (h : r ∈ l)
    (n : Int) : ∃ k, { r with event_index := k } ∈ assignIndex n l := by
  induction l generalizing n with
  | nil => simp at h
  | cons e es ih =>
    rcases List.mem_cons.mp h with rfl | h
    · exact ⟨n, List.mem_cons_self _ _⟩
    · rcases ih h (n + 1) with ⟨k, hk⟩
      exact ⟨k, List.mem_cons_of_mem _ hk⟩

theorem soft_delete_rows_or (es : Eventstream) (delIds : List Int) :
    (soft_delete es delIds).rows = es.rows.map
      (fun e => { e with deleted := e.deleted || softDeleteMark es delIds e }) := by
  unfold soft_delete softDeleteMark
  simp only
  refine List.map_congr_left ?_
  intro e he
  by_cases h : es.refCount == 0
  · simp [h]
  · simp [h, Bool.or_assoc]

theorem soft_delete_mono_aux (es : Eventstream) (ops : List ReadWriteOp)
    (eid : Int) (h : ∃ r ∈ es.rows, r.event_id = eid ∧ r.deleted = true) :
    ∃ r2 ∈ (applyRWOps es ops).rows, r2.event_id = eid ∧ r2.deleted = true := by
  induction ops generalizing es with
  | nil => exact h
  | cons op ops ih =>
    apply ih
    rcases h with ⟨r, hr, hid, hdel⟩
    cases op with
    | softDelete delIds =>
      refine ⟨{ r with deleted := r.deleted || softDeleteMark es delIds r },
        ?_, by simpa using hid, by simp [hdel]⟩
      rw [show applyRWOp es (ReadWriteOp.softDelete delIds) = soft_delete es delIds from rfl,
        soft_delete_rows_or]
      exact List.mem_map_of_mem _ hr
    | reindex =>
      have hs : r ∈ insertionSort (keyLe es.index_order) es.rows :=
        mem_insertionSort.mpr hr
      rcases mem_assignIndex_of_mem hs 0 with ⟨k, hk⟩
      exact ⟨{ r with event_index := k }, hk, by simpa using hid, by simpa using hdel⟩
    | toDf a b => exact ⟨r, hr, hid, hdel⟩

/-- Claim C6: soft delete is monotonic — _soft_delete combines the new
deletion mark with the prior flag by logical OR, and once a row is deleted no
sequence of _soft_delete, index_events or to_dataframe calls ever yields a
row with that event_id and a cleared flag. -/
theorem soft_delete_monotonic :
    (∀ (es : Eventstream) (delIds : List Int),
      (soft_delete es delIds).rows = es.rows.map
        (fun e => { e with deleted := e.deleted || softDeleteMark es delIds e })) ∧
    (∀ (es : Eventstream) (ops : List ReadWriteOp) (eid : Int),
      (∃ r ∈ es.rows, r.event_id = eid ∧ r.deleted = true) →
      ∃ r2 ∈ (applyRWOps es ops).rows, r2.event_id = eid ∧ r2.deleted = true) :=
  ⟨soft_delete_rows_or, soft_delete_mono_aux⟩

/-- Witness for the monotonicity claim at a concrete stream and call
sequence. -/
theorem soft_delete_monotonic_witness :
    (∃ r ∈ deletedRowStream.rows, r.event_id = 1 ∧ r.deleted = true) ∧
    (∃ r2 ∈ (applyRWOps deletedRowStream
        [ReadWriteOp.softDelete [9], ReadWriteOp.reindex,
         ReadWriteOp.toDf false false]).rows,
      r2.event_id = 1 ∧ r2.deleted = true) :=
  ⟨by decide, soft_delete_monotonic.2 deletedRowStream
    [ReadWriteOp.softDelete [9], ReadWriteOp.reindex,
     ReadWriteOp.toDf false false] 1 (by decide)⟩

/- Sampling validation claim. -/

/-- Claim C9: a user-subsample size makes construction fail with a
validation error exactly when it is neither int nor float, or negative, or a
float share above 1; every valid argument passes validation and sampling
proceeds. -/
theorem user_sample_size_validation (raw : RawFrame) (rds : RawDataSchema)
    (sz : SampleSize) (choose : List Value → Nat → List Value) :
    ((∃ e, sample_user_paths raw rds sz choose = Except.error e) ↔
      invalidSampleSize sz = true) ∧
    ((∃ out, sample_user_paths raw rds sz choose = Except.ok out) ↔
      invalidSampleSize sz = false) := by
  cases sz with
  | other => simp [sample_user_paths, invalidSampleSize]
  | int n =>
    by_cases h : n < 0 <;> simp [sample_user_paths, invalidSampleSize, h]
  | float q =>
    by_cases h1 : q < 0 <;> by_cases h2 : q > 1 <;>
      simp [sample_user_paths, invalidSampleSize, h1, h2]

/- Join precondition claim. -/

theorem find_index_lb {p : α → Bool} (l : List α) : -1 ≤ find_index p l := by
  induction l with
  | nil => simp [find_index]
  | cons a l ih =>
    by_cases h : p a = true
    · simp [find_index, h]
    · simp only [find_index, h, if_false]
      by_cases hr : find_index p l = -1
      · simp [hr]
      · simp only [hr, if_false]
        omega

theorem find_index_eq_neg_one_iff {p : α → Bool} {l : List α} :
    find_index p l = -1 ↔ ∀ a ∈ l, p a = false := by
  induction l with
  | nil => simp [find_index]
  | cons a l ih =>
    by_cases h : p a = true
    · simp only [find_index, h, if_true]
      constructor
      · intro h0; exact absurd h0 (by decide)
      · intro hall; exact absurd (hall a (List.mem_cons_self a l)) (by simp [h])
    · simp only [find_index, h, if_false]
      by_cases hr : find_index p l = -1
      · simp only [hr, if_true]
        constructor
        · intro _
          intro x hx
          rcases List.mem_cons.mp hx with rfl | hx
          · simpa using h
          · exact (ih.mp hr) x hx
        · intro _; rfl
      · simp only [hr, if_false]
        have hlb := @find_index_lb _ p l
        constructor
        · intro hc; omega
        · intro hall
          exact absurd (ih.mpr (fun x hx => hall x (List.mem_cons_of_mem a hx))) hr

/-- Claim C7: _join_eventstream fails with the schema-mismatch error exactly
when the schemas are unequal, fails with the missing-relation error exactly
when the schemas are equal but no relation of the other stream names self,
and raises neither error — the stored table is only replaced on success —
exactly when the precondition holds. -/
theorem join_eventstream_preconditions (self other : Eventstream) :
    (join_eventstream self other = Except.error MergeError.schemaMismatch ↔
      self.schema.is_equal other.schema = false) ∧
    (join_eventstream self other = Except.error MergeError.relationNotFound ↔
      (self.schema.is_equal other.schema = true ∧
        ∀ rel ∈ other.relations, (rel.eventstream == self.id) = false)) ∧
    ((∃ es2, join_eventstream self other = Except.ok es2) ↔
      (self.schema.is_equal other.schema = true ∧
        ∃ rel ∈ other.relations, (rel.eventstream == self.id) = true)) := by
  by_cases hs : self.schema.is_equal other.schema = true
  · by_cases hf : find_index (fun rel => rel.eventstream == self.id) other.relations = -1
    · have hall := find_index_eq_neg_one_iff.mp hf
      have hjoin : join_eventstream self other = Except.error MergeError.relationNotFound := by
        unfold join_eventstream
        rw [hs]
        simp [hf]
      refine ⟨?_, ?_, ?_⟩
      · rw [hjoin]; simp [hs]
      · rw [hjoin]
        simp [hs]
        intro rel hm
        simpa using hall rel hm
      · rw [hjoin]
        simp only [hs, true_and]
        constructor
        · intro ⟨es2, hc⟩; exact absurd hc (by simp)
        · intro ⟨rel, hm, hp⟩
          exact absurd ((hall rel hm) ▸ hp) (by simp)
    · have hok : ∃ es2, join_eventstream self other = Except.ok es2 := by
        unfold join_eventstream
        rw [hs]
        simp only [Bool.not_true, Bool.false_eq_true, if_false, hf, if_true]
        exact ⟨_, rfl⟩
      rcases hok with ⟨es2, hok⟩
      have hex : ∃ rel ∈ other.relations, (rel.eventstream == self.id) = true := by
        by_contra hc
        refine hf (find_index_eq_neg_one_iff.mpr ?_)
        intro x hx
        by_contra hpx
        exact hc ⟨x, hx, by simpa using hpx⟩
      refine ⟨?_, ?_, ?_⟩
      · rw [hok]; simp [hs]
      · rw [hok]
        simp only [hs, true_and]
        constructor
        · intro hc; exact absurd hc (by simp)
        · intro hall
          rcases hex with ⟨rel, hm, hp⟩
          exact absurd ((hall rel hm) ▸ hp) (by simp)
      · exact ⟨fun _ => ⟨hs, hex⟩, fun _ => ⟨es2, hok⟩⟩
  · have hs2 : self.schema.is_equal other.schema = false := by
      simpa using hs
    have hjoin : join_eventstream self other = Except.error MergeError.schemaMismatch := by
      unfold join_eventstream
      rw [hs2]
      simp
    refine ⟨?_, ?_, ?_⟩
    · rw [hjoin]; simp [hs2]
    · rw [hjoin]; simp [hs]
    · rw [hjoin]
      constructor
      · intro ⟨es2, hc⟩; exact absurd hc (by simp)
      · intro ⟨hc, _⟩; exact absurd hc hs

/- Construction cleanup claim. -/

theorem enumTag_length (n : Nat) (l : List α) : (enumTag n l).length = l.length := by
  induction l generalizing n with
  | nil => rfl
  | cons x xs ih => simp [enumTag, ih]

theorem prepareRows_length (rds : RawDataSchema) (relations : List Relation)
    (raw : RawFrame) : (prepareRows rds relations raw).length = raw.rows.length := by
  unfold prepareRows
  rw [List.length_map, enumTag_length]

theorem assignIndex_length (n : Int) (l : List Event) :
    (assignIndex n l).length = l.length := by
  induction l generalizing n with
  | nil => rfl
  | cons e es ih => simp [assignIndex, ih]

theorem insertionSort_length (le : α → α → Bool) (l : List α) :
    (insertionSort le l).length = l.length :=
  (insertionSort_perm le l).length_eq

theorem prepare_events_ok_length {rds : RawDataSchema}
    {relations : List Relation} {raw : RawFrame} {evts : List Event}
    (hp : prepare_events rds relations raw = Except.ok evts) :
    evts.length = raw.rows.length := by
  unfold prepare_events at hp
  split at hp
  · exact absurd hp (by simp)
  · split at hp
    · exact absurd hp (by simp)
    · split at hp
      · exact absurd hp (by simp)
      · split at hp
        · split at hp
          · exact absurd hp (by simp)
          · split at hp
            · exact absurd hp (by simp)
            · cases hp
              exact prepareRows_length rds relations raw
        · split at hp
          · exact absurd hp (by simp)
          · cases hp
            exact prepareRows_length rds relations raw

/-- Claim C8: during construction every row missing event_name,
event_timestamp or user_id is dropped before first use, a warning reporting
the removed-row count is emitted exactly when at least one row was dropped,
and construction itself succeeds; in particular a raw input whose single row
has a null user_id constructs a 0-row eventstream with a warning reporting 1
removed row. -/
theorem construction_drops_incomplete_rows :
    (∀ (esId : Nat) (raw : RawFrame) (rds : RawDataSchema)
        (schema : EventstreamSchema) (io : List Value)
        (relations : List Relation) (choose : List Value → Nat → List Value)
        (es : Eventstream) (warn : Option Nat),
      eventstream_init esId raw rds schema io relations none choose =
        Except.ok (es, warn) →
      ((∀ e ∈ es.rows, e.event_name ≠ Value.null ∧ e.event_timestamp ≠ none ∧
          e.user_id ≠ Value.null) ∧
        (match warn with
         | some k => 0 < k ∧ es.rows.length + k = raw.rows.length
         | none => es.rows.length = raw.rows.length))) ∧
    (eventstream_init 0 nullUserRaw defaultRDS { custom_cols := [] }
        DEFAULT_INDEX_ORDER [] none anyChoose =
      Except.ok (c8ExpectedStream, some 1) ∧ c8ExpectedStream.rows = []) := by
  constructor
  · intro esId raw rds schema io relations choose es warn h
    unfold eventstream_init at h
    simp only [bind, Except.bind] at h
    cases hp : prepare_events rds relations raw with
    | error e => rw [hp] at h; exact absurd h (by simp)
    | ok evts =>
      rw [hp] at h
      simp only [Except.ok.injEq, Prod.mk.injEq] at h
      rcases h with ⟨hes, hwarn⟩
      have hrowseq : es.rows = assignIndex 0 (insertionSort (keyLe io)
          ((required_cleanup evts).1)) := by
        rw [← hes]; rfl
      constructor
      · intro e he
        rw [hrowseq] at he
        rcases mem_assignIndex he with ⟨b, hb, k, rfl⟩
        have hbc : b ∈ (required_cleanup evts).1 := mem_insertionSort.mp hb
        have := List.of_mem_filter hbc
        simp only [requiredRowOk, Bool.and_eq_true, Bool.not_eq_true',
          beq_eq_false_iff_ne] at this
        exact ⟨this.1.1, this.1.2, this.2⟩
      · have hlen : es.rows.length = (evts.filter requiredRowOk).length := by
          rw [hrowseq, assignIndex_length, insertionSort_length]
          rfl
        have hfle : (evts.filter requiredRowOk).length ≤ evts.length :=
          List.length_filter_le _ evts
        have hplen := prepare_events_ok_length hp
        have hwarn2 : warn = if evts.length - (evts.filter requiredRowOk).length > 0
            then some (evts.length - (evts.filter requiredRowOk).length)
            else none := hwarn.symm
        by_cases hpos : 0 < evts.length - (evts.filter requiredRowOk).length
        · have hw : warn = some (evts.length - (evts.filter requiredRowOk).length) := by
            rw [hwarn2]; simp [hpos]
          rw [hw]
          exact ⟨hpos, by omega⟩
        · have hw : warn = none := by
            rw [hwarn2]; simp; omega
          rw [hw]
          show es.rows.length = raw.rows.length
          omega
  · exact ⟨by rfl, by rfl⟩

/-- Witness for the construction claim at the missing-required-field
example. -/
theorem construction_drops_incomplete_rows_witness :
    (eventstream_init 0 nullUserRaw defaultRDS { custom_cols := [] }
        DEFAULT_INDEX_ORDER [] none anyChoose =
      Except.ok (c8ExpectedStream, some 1)) ∧
    ((∀ e ∈ c8ExpectedStream.rows, e.event_name ≠ Value.null ∧
        e.event_timestamp ≠ none ∧ e.user_id ≠ Value.null) ∧
      (match (some 1 : Option Nat) with
       | some k => 0 < k ∧ c8ExpectedStream.rows.length + k = nullUserRaw.rows.length
       | none => c8ExpectedStream.rows.length = nullUserRaw.rows.length)) :=
  ⟨by rfl, construction_drops_incomplete_rows.1 0 nullUserRaw defaultRDS
    { custom_cols := [] } DEFAULT_INDEX_ORDER [] anyChoose c8ExpectedStream
    (some 1) (by rfl)⟩

/- Copy independence claim. -/

theorem heapGet_eq_getElem? (h : Heap) (i : Nat) : heapGet h i = h[i]? := by
  unfold heapGet
  rw [List.getD_eq_getElem?_getD, List.getElem?_map]
  cases h[i]? <;> simp

theorem heapGet_mutate_ne (h : Heap) (i j : Nat) (op : MutOp) (hne : i ≠ j) :
    heapGet (heapMutate h j op) i = heapGet h i := by
  unfold heapMutate
  cases hj : heapGet h j with
  | none => rfl
  | some es =>
    rw [heapGet_eq_getElem?, heapGet_eq_getElem?]
    exact List.getElem?_set_ne (fun hc => hne hc.symm)

theorem heapRun_fixed_target (j : Nat) (muts : List MutOp) (h : Heap)
    (i : Nat) (hne : i ≠ j) :
    heapGet (heapRun h (muts.map (fun m => (j, m)))) i = heapGet h i := by
  induction muts generalizing h with
  | nil => rfl
  | cons m ms ih =>
    show heapGet (heapRun (heapMutate h j m) (ms.map (fun m => (j, m)))) i = _
    rw [ih (heapMutate h j m), heapGet_mutate_ne h i j m hne]

/-- Claim C10: copy yields a fresh object initialised from independent
copies of the data of the original, so that any sequence of subsequent
mutations of the copy (soft delete, re-indexing, adding a custom column, a
merge or join replacing the table) leaves the original object untouched, and
any sequence of mutations of the original leaves the copy untouched. -/
theorem copy_independent (h : Heap) (i : Nat) (es : Eventstream)
    (hes : heapGet h i = some es) :
    (heapCopy h i).2 ≠ i ∧
    heapGet (heapCopy h i).1 i = some es ∧
    heapGet (heapCopy h i).1 (heapCopy h i).2 =
      some (copy_contents es h.length) ∧
    (∀ muts : List MutOp,
      heapGet (heapRun (heapCopy h i).1
        (muts.map (fun m => ((heapCopy h i).2, m)))) i = some es) ∧
    (∀ muts : List MutOp,
      heapGet (heapRun (heapCopy h i).1 (muts.map (fun m => (i, m))))
        (heapCopy h i).2 = some (copy_contents es h.length)) := by
  have hget : h[i]? = some es := by rw [← heapGet_eq_getElem?]; exact hes
  have hlt : i < h.length := by
    by_contra hc
    rw [List.getElem?_eq_none (Nat.le_of_not_lt hc)] at hget
    exact absurd hget (by simp)
  have hcopy : heapCopy h i = (h ++ [copy_contents es h.length], h.length) := by
    unfold heapCopy
    rw [hes]
  have hne : i ≠ h.length := Nat.ne_of_lt hlt
  have hgi : heapGet (h ++ [copy_contents es h.length]) i = some es := by
    rw [heapGet_eq_getElem?, List.getElem?_append_left hlt]
    exact hget
  have hgj : heapGet (h ++ [copy_contents es h.length]) h.length =
      some (copy_contents es h.length) := by
    rw [heapGet_eq_getElem?, List.getElem?_concat_length]
  refine ⟨by rw [hcopy]; exact fun hc => hne hc.symm, ?_, ?_, ?_, ?_⟩
  · rw [hcopy]; exact hgi
  · rw [hcopy]; exact hgj
  · intro muts
    rw [hcopy]
    show heapGet (heapRun _ (muts.map (fun m => (h.length, m)))) i = some es
    rw [heapRun_fixed_target h.length muts _ i hne]
    exact hgi
  · intro muts
    rw [hcopy]
    show heapGet (heapRun _ (muts.map (fun m => (i, m)))) h.length =
      some (copy_contents es h.length)
    rw [heapRun_fixed_target i muts _ h.length (fun hc => hne hc.symm)]
    exact hgj

/-- Witness for the copy-independence claim on a one-object heap. -/
theorem copy_independent_witness :
    heapGet [exampleOrderingStream] 0 = some exampleOrderingStream ∧
    ((heapCopy [exampleOrderingStream] 0).2 ≠ 0 ∧
      heapGet (heapCopy [exampleOrderingStream] 0).1 0 =
        some exampleOrderingStream ∧
      heapGet (heapCopy [exampleOrderingStream] 0).1
          (heapCopy [exampleOrderingStream] 0).2 =
        some (copy_contents exampleOrderingStream 1) ∧
      (∀ muts : List MutOp,
        heapGet (heapRun (heapCopy [exampleOrderingStream] 0).1
          (muts.map (fun m => ((heapCopy [exampleOrderingStream] 0).2, m)))) 0 =
          some exampleOrderingStream) ∧
      (∀ muts : List MutOp,
        heapGet (heapRun (heapCopy [exampleOrderingStream] 0).1
            (muts.map (fun m => (0, m))))
          (heapCopy [exampleOrderingStream] 0).2 =
          some (copy_contents exampleOrderingStream 1))) :=
  ⟨by rfl, copy_independent [exampleOrderingStream] 0 exampleOrderingStream
    (by rfl)⟩

/- Lineage join coverage claim. -/

theorem leftOnly_mem_outerMerge {xs ys : List Event}
    {xkey ykey : Event → Option Int} {x : Event} (hx : x ∈ xs)
    (hys : ∀ y ∈ ys, ykey y ≠ xkey x) :
    MergedRow.leftOnly x ∈ outerMerge xs ys xkey ykey := by
  unfold outerMerge
  apply List.mem_flatMap.mpr
  refine ⟨xkey x, ?_, ?_⟩
  · apply mem_insertionSort.mpr
    apply List.mem_dedup.mpr
    exact List.mem_append_left _ (List.mem_map_of_mem xkey hx)
  · have hysf : ys.filter (fun y => ykey y == xkey x) = [] := by
      apply List.filter_eq_nil.mpr
      intro y hy
      simpa using hys y hy
    rw [hysf]
    unfold mergeGroup
    simp only [List.isEmpty_nil, if_true]
    apply List.mem_map_of_mem
    apply List.mem_filter.mpr
    exact ⟨hx, by simp⟩

theorem agree_mem_sorted_assign (io : List Value) (l : List Event)
    (x : Event) (hx : x ∈ l) (b : Event)
    (hagree : rowFieldsAgree x b = true) :
    ∃ r2 ∈ assignIndex 0 (insertionSort (keyLe io) l),
      rowFieldsAgree r2 b = true := by
  rcases mem_assignIndex_of_mem (mem_insertionSort.mpr hx) 0 with ⟨k, hk⟩
  exact ⟨{ x with event_index := k }, hk, hagree⟩

/-- Claim C1 (amended): under the join preconditions, every parent row whose
event_id is referenced by no child row under the relation column appears in
the join result with every field unchanged except its relation columns
(which the join drops) and its event_index (which the final re-sort
recomputes). -/
theorem join_keeps_unreferenced_parent_rows (self other : Eventstream)
    (i : Nat) (r : Event)
    (hs : self.schema.is_equal other.schema = true)
    (hf : find_index (fun rel => rel.eventstream == self.id) other.relations =
      Int.ofNat i)
    (hr : r ∈ self.rows)
    (hn : ∀ y ∈ other.rows, y.refs.getD i none ≠ some r.event_id) :
    ∃ es2, join_eventstream self other = Except.ok es2 ∧
      ∃ r2 ∈ es2.rows, rowFieldsAgree r2 r = true := by
  have hne : ¬(find_index (fun rel => rel.eventstream == self.id)
      other.relations = -1) := by
    rw [hf]
    intro hc
    have h0 : (0 : Int) ≤ Int.ofNat i := Int.ofNat_nonneg i
    rw [hc] at h0
    exact absurd h0 (by norm_num)
  unfold join_eventstream
  rw [hs]
  simp only [Bool.not_true, Bool.false_eq_true, if_false, hne, hf]
  have htn : (Int.ofNat i).toNat = i := rfl
  simp only [htn]
  refine ⟨_, rfl, ?_⟩
  have hmem : MergedRow.leftOnly r ∈ outerMerge self.rows other.rows
      (fun e => some e.event_id) (fun e => e.refs.getD i none) := by
    apply leftOnly_mem_outerMerge hr
    intro y hy
    exact hn y hy
  have hleft : r ∈ (outerMerge self.rows other.rows
      (fun e => some e.event_id) (fun e => e.refs.getD i none)).filterMap
        (fun m => match m with | MergedRow.leftOnly x => some x | _ => none) := by
    apply List.mem_filterMap.mpr
    exact ⟨MergedRow.leftOnly r, hmem, rfl⟩
  have hres : stripRefs r ∈ ((outerMerge self.rows other.rows
      (fun e => some e.event_id) (fun e => e.refs.getD i none)).filterMap
        (fun m => match m with | MergedRow.leftOnly x => some x | _ => none)).map
          stripRefs := List.mem_map_of_mem stripRefs hleft
  apply agree_mem_sorted_assign
  · exact List.mem_append.mpr (Or.inl (List.mem_append.mpr (Or.inl hres)))
  · simp [rowFieldsAgree, stripRefs]

/-- Claim C1 as stated fails: at this concrete instance the unreferenced
parent row does not appear with all of its fields unchanged — its relation
column is dropped and its event_index is recomputed — although a row
agreeing on every other field does appear. -/
theorem join_unreferenced_row_cex :
    joinParentRow ∈ joinParentStream.rows ∧
    (∀ y ∈ joinChildStream.rows,
      y.refs.getD 0 none ≠ some joinParentRow.event_id) ∧
    join_eventstream joinParentStream joinChildStream =
      Except.ok joinResultStream ∧
    (∀ r2 ∈ joinResultStream.rows, ¬(r2 = joinParentRow)) ∧
    (∃ r2 ∈ joinResultStream.rows, rowFieldsAgree r2 joinParentRow = true) := by
  refine ⟨by decide, by decide, by rfl, by decide, by decide⟩

/-- Witness for the amended lineage-join claim at the concrete example. -/
theorem join_keeps_unreferenced_parent_rows_witness :
    (joinParentStream.schema.is_equal joinChildStream.schema = true ∧
      find_index (fun rel => rel.eventstream == joinParentStream.id)
        joinChildStream.relations = Int.ofNat 0 ∧
      joinParentRow ∈ joinParentStream.rows ∧
      (∀ y ∈ joinChildStream.rows,
        y.refs.getD 0 none ≠ some joinParentRow.event_id)) ∧
    (∃ es2, join_eventstream joinParentStream joinChildStream =
        Except.ok es2 ∧
      ∃ r2 ∈ es2.rows, rowFieldsAgree r2 joinParentRow = true) :=
  ⟨⟨by rfl, by rfl, by decide, by decide⟩,
    join_keeps_unreferenced_parent_rows joinParentStream joinChildStream 0
      joinParentRow (by rfl) (by rfl) (by decide) (by decide)⟩

/- Union merge identity claim. -/

theorem flatMap_congr_mem {l : List κ} {f g : κ → List α}
    (h : ∀ k ∈ l, f k = g k) : l.flatMap f = l.flatMap g := by
  induction l with
  | nil => rfl
  | cons k ks ih =>
    rw [List.flatMap_cons, List.flatMap_cons, h k (List.mem_cons_self k ks),
      ih (fun x hx => h x (List.mem_cons_of_mem k hx))]

theorem filter_of_filter_ne [BEq κ] [LawfulBEq κ] (key : α → κ) (xs : List α)
    (k k2 : κ) (hne : k2 ≠ k) :
    xs.filter (fun x => key x == k2) =
      (xs.filter (fun x => !(key x == k))).filter (fun x => key x == k2) := by
  rw [List.filter_filter]
  apply List.filter_congr
  intro x hx
  by_cases h : key x = k2
  · have h2 : key x ≠ k := fun hc => hne (h ▸ hc ▸ rfl)
    simp [h, h2, hne]
  · simp [h]

theorem flatMap_filter_perm [BEq κ] [LawfulBEq κ] (key : α → κ) (xs : List α)
    (ks : List κ) (hnd : ks.Nodup) (hcov : ∀ x ∈ xs, key x ∈ ks) :
    (ks.flatMap (fun k => xs.filter (fun x => key x == k))).Perm xs := by
  induction ks generalizing xs with
  | nil =>
    cases xs with
    | nil => simp
    | cons a l => exact absurd (hcov a (List.mem_cons_self a l)) (by simp)
  | cons k ks ih =>
    rcases List.nodup_cons.mp hnd with ⟨hk, hks⟩
    rw [List.flatMap_cons]
    have hcong : ks.flatMap (fun k2 => xs.filter (fun x => key x == k2)) =
        ks.flatMap (fun k2 => (xs.filter (fun x => !(key x == k))).filter
          (fun x => key x == k2)) := by
      apply flatMap_congr_mem
      intro k2 hk2
      exact filter_of_filter_ne key xs k k2 (fun hc => hk (hc ▸ hk2))
    rw [hcong]
    have hcov2 : ∀ x ∈ xs.filter (fun x => !(key x == k)), key x ∈ ks := by
      intro x hx
      have hxs := List.mem_of_mem_filter hx
      have hpred := List.of_mem_filter hx
      have hne : key x ≠ k := by simpa using hpred
      rcases List.mem_cons.mp (hcov x hxs) with hc | hc
      · exact absurd hc hne
      · exact hc
    have hperm := ih (xs.filter (fun x => !(key x == k))) hks hcov2
    have happ := hperm.append_left (xs.filter (fun x => key x == k))
    refine happ.trans ?_
    exact List.filter_append_perm (fun x => key x == k) xs

theorem outerMerge_nil_right (xs : List Event) (xkey ykey : Event → Option Int) :
    outerMerge xs [] xkey ykey =
      (insertionSort okLe ((xs.map xkey).dedup)).flatMap
        (fun k => (xs.filter (fun x => xkey x == k)).map MergedRow.leftOnly) := by
  unfold outerMerge
  simp only [List.map_nil, List.append_nil]
  rfl

theorem filterMap_leftOnly_flatMap (ks : List κ) (f : κ → List Event) :
    (ks.flatMap (fun k => (f k).map MergedRow.leftOnly)).filterMap
        (fun m => match m with | MergedRow.leftOnly x => some x | _ => none) =
      ks.flatMap f := by
  induction ks with
  | nil => rfl
  | cons k ks ih =>
    rw [List.flatMap_cons, List.flatMap_cons, List.filterMap_append, ih,
      List.filterMap_map]
    congr 1
    exact List.filterMap_some (f k)

theorem filterMap_leftOnly_flatMap_nil {β : Type} (g : MergedRow → Option β)
    (hg : ∀ x, g (MergedRow.leftOnly x) = none) (ks : List κ)
    (f : κ → List Event) :
    (ks.flatMap (fun k => (f k).map MergedRow.leftOnly)).filterMap g = [] := by
  induction ks with
  | nil => rfl
  | cons k ks ih =>
    rw [List.flatMap_cons, List.filterMap_append, ih, List.filterMap_map,
      List.append_nil]
    have : (g ∘ MergedRow.leftOnly) = fun _ => none := by
      funext x
      exact hg x
    rw [this]
    simp

theorem keyLt_asymm {io : List Value} {a b : Event}
    (h : keyLt io a b = true) : keyLt io b a = false := by
  rcases (keyLt_iff io a b).mp h with h1 | h1
  · by_contra hc
    rcases (keyLt_iff io b a).mp (by simpa using hc) with h2 | h2
    · have := tsLt_trans h1 h2
      rw [tsLt_irrefl] at this
      exact absurd this (by simp)
    · rw [h2.1] at h1
      rw [tsLt_irrefl] at h1
      exact absurd h1 (by simp)
  · by_contra hc
    rcases (keyLt_iff io b a).mp (by simpa using hc) with h2 | h2
    · rw [h1.1] at h2
      rw [tsLt_irrefl] at h2
      exact absurd h2 (by simp)
    · omega

theorem keyLt_keyEq_false {io : List Value} {a b : Event}
    (h : keyLt io a b = true) : keyEq io a b = false := by
  by_contra hc
  have he := (keyEq_iff io a b).mp (by simpa using hc)
  rcases (keyLt_iff io a b).mp h with h1 | h1
  · rw [he.1] at h1
    rw [tsLt_irrefl] at h1
    exact absurd h1 (by simp)
  · omega

theorem keyEq_false_symm {io : List Value} {a b : Event}
    (h : keyEq io a b = false) : keyEq io b a = false := by
  by_contra hc
  have he := (keyEq_iff io b a).mp (by simpa using hc)
  have : keyEq io a b = true := (keyEq_iff io a b).mpr ⟨he.1.symm, he.2.symm⟩
  rw [this] at h
  exact absurd h (by simp)

theorem keyLt_of_keyLe_of_keyEq_false {io : List Value} {a b : Event}
    (h1 : keyLe io a b = true) (h2 : keyEq io a b = false) :
    keyLt io a b = true := by
  rcases (keyLe_iff io a b).mp h1 with h | h
  · exact h
  · rw [h] at h2
    exact absurd h2 (by simp)

theorem keyLt_strip (io : List Value) (a b : Event) :
    keyLt io (stripRefs a) (stripRefs b) = keyLt io a b := rfl

theorem keyLe_strip (io : List Value) (a b : Event) :
    keyLe io (stripRefs a) (stripRefs b) = keyLe io a b := rfl

theorem assignIndex_map_strip (n : Int) (l : List Event) :
    assignIndex n (l.map stripRefs) = (assignIndex n l).map stripRefs := by
  induction l generalizing n with
  | nil => rfl
  | cons e es ih => simp [assignIndex, stripRefs, ih]

/-- Uniqueness of a sorted arrangement: the insertion sort of any permutation
of a list that is strictly sorted by the key returns that list. -/
theorem insertionSort_eq_of_pairwise_keyLt {io : List Value}
    {l t : List Event} (hperm : l.Perm t)
    (ht : t.Pairwise (fun a b => keyLt io a b = true)) :
    insertionSort (keyLe io) l = t := by
  have hsortperm : (insertionSort (keyLe io) l).Perm t :=
    (insertionSort_perm (keyLe io) l).trans hperm
  have hle : (insertionSort (keyLe io) l).Pairwise
      (fun a b => keyLe io a b = true) :=
    pairwise_insertionSort (fun a b => keyLe_total io a b)
      (fun a b c => keyLe_trans io a b c) l
  have hne_t : t.Pairwise (fun a b => keyEq io a b = false) :=
    ht.imp (fun h => keyLt_keyEq_false h)
  have hne_s : (insertionSort (keyLe io) l).Pairwise
      (fun a b => keyEq io a b = false) :=
    (hsortperm.pairwise_iff (fun h => keyEq_false_symm h)).mpr hne_t
  have hlt_s : (insertionSort (keyLe io) l).Pairwise
      (fun a b => keyLt io a b = true) :=
    (hle.and hne_s).imp (fun h => keyLt_of_keyLe_of_keyEq_false h.1 h.2)
  haveI : IsAntisymm Event (fun a b => keyLt io a b = true) :=
    ⟨fun a b h1 h2 => absurd h2 (by rw [keyLt_asymm h1]; simp)⟩
  exact List.eq_of_perm_of_sorted hsortperm hlt_s ht

theorem get_cols_no_ref (s : EventstreamSchema) (c : Col)
    (hc : c ∈ s.get_cols) : ∀ i, c ≠ Col.ref i := by
  intro i hci
  subst hci
  simp [EventstreamSchema.get_cols] at hc

theorem cellOf_strip (e : Event) (c : Col) (h : ∀ i, c ≠ Col.ref i) :
    cellOf (stripRefs e) c = cellOf e c := by
  cases c with
  | ref i => exact absurd rfl (h i)
  | event_id => rfl
  | event_name => rfl
  | event_type => rfl
  | event_timestamp => rfl
  | user_id => rfl
  | event_index => rfl
  | custom n => rfl
  | raw n => rfl
  | deleted => rfl

/-- Claim C2 (amended): appending an empty same-schema eventstream leaves the
default materialized view unchanged provided the stream carries no relation
columns (the merge drops them) and no two rows share the sort key pair
(the outer merge re-orders tied rows by event_id); its rows must carry their
indexed positions, as every constructed eventstream does. -/
theorem append_empty_identity (self other : Eventstream)
    (hs : self.schema.is_equal other.schema = true)
    (hempty : other.rows = [])
    (href : self.refCount = 0)
    (hidx : assignIndex 0 self.rows = self.rows)
    (hkeys : self.rows.Pairwise (fun a b => keyLt self.index_order a b = true)) :
    ∃ es2, append_eventstream self other = Except.ok es2 ∧
      to_dataframe es2 false false = to_dataframe self false false := by
  unfold append_eventstream
  rw [hs]
  simp only [Bool.not_true, Bool.false_eq_true, if_false]
  refine ⟨_, rfl, ?_⟩
  rw [hempty]
  rw [outerMerge_nil_right self.rows (fun e => some e.event_id)
    (fun e => some e.event_id)]
  rw [filterMap_leftOnly_flatMap]
  rw [filterMap_leftOnly_flatMap_nil
    (fun m => match m with | MergedRow.both x y => some (x, y) | _ => none)
    (fun x => rfl)]
  rw [filterMap_leftOnly_flatMap_nil
    (fun m => match m with | MergedRow.rightOnly y => some y | _ => none)
    (fun x => rfl)]
  simp only [List.filter_nil, List.map_nil, List.append_nil, List.nil_append]
  have hGperm : ((insertionSort okLe
      ((self.rows.map (fun e => (some e.event_id : Option Int))).dedup)).flatMap
        (fun k => self.rows.filter (fun x => (some x.event_id : Option Int) == k))).Perm
      self.rows := by
    refine flatMap_filter_perm (fun e => (some e.event_id : Option Int))
      self.rows _ ?_ ?_
    · exact ((insertionSort_perm okLe _).nodup_iff).mpr (List.nodup_dedup _)
    · intro x hx
      exact mem_insertionSort.mpr (List.mem_dedup.mpr
        (List.mem_map_of_mem _ hx))
  have hsort : insertionSort (keyLe self.index_order)
      (((insertionSort okLe
        ((self.rows.map (fun e => (some e.event_id : Option Int))).dedup)).flatMap
          (fun k => self.rows.filter
            (fun x => (some x.event_id : Option Int) == k))).map stripRefs) =
      self.rows.map stripRefs := by
    apply insertionSort_eq_of_pairwise_keyLt (hGperm.map stripRefs)
    exact List.pairwise_map.mpr hkeys
  unfold index_events to_dataframe
  simp only [hsort, List.range_zero, List.map_nil, List.append_nil, href,
    Bool.false_eq_true, if_false, Eventstream.get_relation_cols]
  rw [assignIndex_map_strip, hidx]
  congr 1
  rw [List.filter_map, List.map_map]
  have hfeq : self.rows.filter ((fun e => e.deleted == false) ∘ stripRefs) =
      self.rows.filter (fun e => e.deleted == false) :=
    List.filter_congr (fun e he => rfl)
  rw [hfeq]
  apply List.map_congr_left
  intro e he
  show (self.schema.get_cols).map (cellOf (stripRefs e)) =
    (self.schema.get_cols).map (cellOf e)
  apply List.map_congr_left
  intro c hc
  exact cellOf_strip e c (get_cols_no_ref self.schema c hc)

/-- Claim C2 as stated fails: appending an empty compatible stream drops the
relation column of the view and re-orders rows tied on the sort key by
event_id. -/
theorem append_empty_changes_view_cex :
    cexAppendSelf.schema.is_equal cexAppendEmpty.schema = true ∧
    cexAppendEmpty.rows = [] ∧
    append_eventstream cexAppendSelf cexAppendEmpty =
      Except.ok cexAppendResult ∧
    to_dataframe cexAppendResult false false ≠
      to_dataframe cexAppendSelf false false ∧
    Col.ref 0 ∈ (to_dataframe cexAppendSelf false false).cols ∧
    Col.ref 0 ∉ (to_dataframe cexAppendResult false false).cols ∧
    (to_dataframe cexAppendSelf false false).rows.map
        (fun r => r.getD 0 Value.null) = [Value.vInt 2, Value.vInt 1] ∧
    (to_dataframe cexAppendResult false false).rows.map
        (fun r => r.getD 0 Value.null) = [Value.vInt 1, Value.vInt 2] :=
  ⟨by decide, by rfl, by rfl, by decide, by decide, by decide, by decide,
    by decide⟩

/-- Witness for the amended union-merge identity at a concrete indexed
stream with distinct keys. -/
theorem append_empty_identity_witness :
    (wAppendSelf.schema.is_equal cexAppendEmpty.schema = true ∧
      cexAppendEmpty.rows = [] ∧
      wAppendSelf.refCount = 0 ∧
      assignIndex 0 wAppendSelf.rows = wAppendSelf.rows ∧
      wAppendSelf.rows.Pairwise
        (fun a b => keyLt wAppendSelf.index_order a b = true)) ∧
    (∃ es2, append_eventstream wAppendSelf cexAppendEmpty = Except.ok es2 ∧
      to_dataframe es2 false false = to_dataframe wAppendSelf false false) :=
  ⟨⟨by decide, by rfl, by rfl, by decide, by decide⟩,
    append_empty_identity wAppendSelf cexAppendEmpty (by decide) (by rfl)
      (by rfl) (by decide) (by decide)⟩
